import Mathlib

/-!
Verification development for the shared-mailbox mail client.

The TypeScript source (`MailClient` plus `utils`) is shallowly embedded
below.  Pure computations become Lean functions; the network/filesystem
side effects of a run are captured as an explicit trace of `NetEvent`
values paired with an optional `MailError`.  HEAD/GET responses, `fs.stat`
results and stream chunkings are inputs (an `AttEnv` record), since they
are data the environment feeds the code.  Range-PUT responses are taken as
accepted (status 202/201/200); every claim below quantifies over the
decision logic that runs before or independently of PUT outcomes.
-/

/-- Maximum single-attachment size: 150 MiB (Graph upload-session limit),
from `MAX_ATTACHMENT_SIZE` in the source. -/
def MAX_ATTACHMENT_SIZE : Nat := 150 * 1024 * 1024

/-- Protocol chunk unit: 320 KiB, the `base` constant of the source's
normalization blocks. -/
def protocolBase : Int := 320 * 1024

/-- Chunk-size normalization from the `MailClient` constructor:
`if (chunkSize % base !== 0) chunkSize = Math.max(base, Math.floor(chunkSize / base) * base)`.
JS `%` on integers is the truncated remainder (`Int.tmod`) and
`Math.floor` of an exact integer quotient is floor division (`Int.fdiv`). -/
def normalizeChunkSize (chunkSize : Int) : Int :=
  if chunkSize.tmod protocolBase ≠ 0 then
    max protocolBase (chunkSize.fdiv protocolBase * protocolBase)
  else chunkSize

/-- The same normalization block as it reappears at the upload sites
(`uploadLargeContent`, `uploadLargeFileByPath`, `uploadAttachmentFromUrl`),
over the natural-number sizes used there. -/
def normalizeChunkSizeNat (chunkSize : Nat) : Nat :=
  if chunkSize % (320 * 1024) ≠ 0 then
    max (320 * 1024) (chunkSize / (320 * 1024) * (320 * 1024))
  else chunkSize

/-- Byte ranges emitted by the `while (offset < content.length)` loop of
`uploadLargeContent`: each iteration takes `endExclusive = min(offset + chunkSize, total)`
and sends the inclusive range `(offset, endExclusive - 1)`.  The guard
`0 < chunkSize` is required for termination; the source diverges when the
normalized chunk size is zero, a case excluded by every theorem's
hypotheses. -/
def chunkRangesAux (total chunkSize offset : Nat) : List (Nat × Nat) :=
  if h : 0 < chunkSize ∧ offset < total then
    (offset, min (offset + chunkSize) total - 1) ::
      chunkRangesAux total chunkSize (min (offset + chunkSize) total)
  else []
termination_by total - offset
decreasing_by
  have h1 : offset < min (offset + chunkSize) total := lt_min (by omega) h.2
  exact Nat.sub_lt_sub_left h.2 h1

/-- Ranges of the buffer-content chunked upload, starting at offset 0. -/
def chunkRanges (total chunkSize : Nat) : List (Nat × Nat) :=
  chunkRangesAux total chunkSize 0

/-- Ranges sent by `uploadLargeFileByPath`: one PUT per stream chunk, the
chunk of length `l` at running offset `o` giving the inclusive range
`(o, o + l - 1)`. -/
def pathStreamRanges (offset : Nat) : List Nat → List (Nat × Nat)
  | [] => []
  | l :: ls => (offset, offset + l - 1) :: pathStreamRanges (offset + l) ls

/-- The inner `while (pending.length >= chunkSize)` drain of the streaming
URL upload: repeatedly peel a full chunk off the pending buffer, sending
`(offset, offset + chunkSize - 1)`.  Returns the emitted ranges together
with the final offset and the residual pending length. -/
def drainPending (chunkSize offset pending : Nat) : List (Nat × Nat) × Nat × Nat :=
  if h : 0 < chunkSize ∧ chunkSize ≤ pending then
    let rest := drainPending chunkSize (offset + chunkSize) (pending - chunkSize)
    ((offset, offset + chunkSize - 1) :: rest.1, rest.2)
  else ([], offset, pending)
termination_by pending
decreasing_by omega

/-- The outer reader loop of the streaming URL upload: each arriving chunk
is appended to the pending buffer, which is then drained. -/
def urlStreamLoop (chunkSize : Nat) (offset pending : Nat) :
    List Nat → List (Nat × Nat) × Nat × Nat
  | [] => ([], offset, pending)
  | l :: ls =>
    let d := drainPending chunkSize offset (pending + l)
    let rest := urlStreamLoop chunkSize d.2.1 d.2.2 ls
    (d.1 ++ rest.1, rest.2)

/-- All ranges sent by the known-size streaming URL upload: the drained
full chunks plus, when bytes remain pending after the stream ends, a final
range whose inclusive end is `declaredSize - 1` (the source writes
`const end = size - 1` for the last PUT). -/
def urlStreamRanges (declaredSize chunkSize : Nat) (chunkLens : List Nat) :
    List (Nat × Nat) :=
  let r := urlStreamLoop chunkSize 0 0 chunkLens
  if 0 < r.2.2 then r.1 ++ [(r.2.1, declaredSize - 1)] else r.1

/-- A range list is contiguous from `o` when its first range starts at
exactly `o`, every range is nonempty (`start ≤ end`), and each later range
starts exactly one past the previous range's inclusive end.  This is the
no-gaps / no-overlaps invariant of the upload-session drivers. -/
def contiguousFrom : Nat → List (Nat × Nat) → Prop
  | _, [] => True
  | o, r :: rs => r.1 = o ∧ o ≤ r.2 ∧ contiguousFrom (r.2 + 1) rs

/-- One past the last inclusive end of a contiguous range list started at
`o`; equals `o` for the empty list. -/
def endOf : Nat → List (Nat × Nat) → Nat
  | o, [] => o
  | _, r :: rs => endOf (r.2 + 1) rs

theorem endOf_ge (rs : List (Nat × Nat)) : ∀ o, contiguousFrom o rs → o ≤ endOf o rs := by
  induction rs with
  | nil => intro o _; exact Nat.le_refl o
  | cons r rs ih =>
    intro o h
    obtain ⟨h1, h2, h3⟩ := h
    have := ih (r.2 + 1) h3
    simp only [endOf]
    omega

theorem contiguousFrom_le (rs : List (Nat × Nat)) :
    ∀ o, contiguousFrom o rs → ∀ r ∈ rs, o ≤ r.1 ∧ r.1 ≤ r.2 ∧ r.2 < endOf o rs := by
  induction rs with
  | nil => intro o _ r hr; cases hr
  | cons a rs ih =>
    intro o h r hr
    obtain ⟨h1, h2, h3⟩ := h
    rcases List.mem_cons.mp hr with rfl | hmem
    · refine ⟨le_of_eq h1.symm, by omega, ?_⟩
      have := endOf_ge rs (r.2 + 1) h3
      simp only [endOf]
      omega
    · have := ih (a.2 + 1) h3 r hmem
      simp only [endOf]
      omega

theorem contiguousFrom_pairwise_ends (rs : List (Nat × Nat)) :
    ∀ o, contiguousFrom o rs → List.Pairwise (fun a b => a.2 < b.2) rs := by
  induction rs with
  | nil => intro o _; exact List.Pairwise.nil
  | cons a rs ih =>
    intro o h
    obtain ⟨h1, h2, h3⟩ := h
    refine List.Pairwise.cons ?_ (ih (a.2 + 1) h3)
    intro b hb
    have := contiguousFrom_le rs (a.2 + 1) h3 b hb
    omega

theorem contiguousFrom_pairwise_starts (rs : List (Nat × Nat)) :
    ∀ o, contiguousFrom o rs → List.Pairwise (fun a b => a.1 < b.1) rs := by
  induction rs with
  | nil => intro o _; exact List.Pairwise.nil
  | cons a rs ih =>
    intro o h
    obtain ⟨h1, h2, h3⟩ := h
    refine List.Pairwise.cons ?_ (ih (a.2 + 1) h3)
    intro b hb
    have := contiguousFrom_le rs (a.2 + 1) h3 b hb
    omega

theorem contiguousFrom_cover (rs : List (Nat × Nat)) :
    ∀ o, contiguousFrom o rs → ∀ b, o ≤ b → b < endOf o rs →
      ∃ r ∈ rs, r.1 ≤ b ∧ b ≤ r.2 := by
  induction rs with
  | nil => intro o _ b hb1 hb2; simp only [endOf] at hb2; omega
  | cons a rs ih =>
    intro o h b hb1 hb2
    obtain ⟨h1, h2, h3⟩ := h
    by_cases hc : b ≤ a.2
    · exact ⟨a, List.mem_cons_self a rs, by omega, hc⟩
    · simp only [endOf] at hb2
      obtain ⟨r, hr, hr1, hr2⟩ := ih (a.2 + 1) h3 b (by omega) hb2
      exact ⟨r, List.mem_cons_of_mem a hr, hr1, hr2⟩

theorem contiguousFrom_getLast (rs : List (Nat × Nat)) :
    ∀ o, contiguousFrom o rs → rs ≠ [] →
      rs.getLast?.map Prod.snd = some (endOf o rs - 1) := by
  induction rs with
  | nil => intro o _ hne; exact absurd rfl hne
  | cons a rs ih =>
    intro o h _
    obtain ⟨h1, h2, h3⟩ := h
    cases rs with
    | nil => simp [endOf]
    | cons b rs' =>
      have := ih (a.2 + 1) h3 (by simp)
      simpa [List.getLast?_cons_cons, endOf] using this

theorem endOf_append (rs1 rs2 : List (Nat × Nat)) :
    ∀ o, endOf o (rs1 ++ rs2) = endOf (endOf o rs1) rs2 := by
  induction rs1 with
  | nil => intro o; simp [endOf]
  | cons a rs ih => intro o; simp only [List.cons_append, endOf]; exact ih (a.2 + 1)

theorem contiguousFrom_append (rs1 rs2 : List (Nat × Nat)) :
    ∀ o, contiguousFrom o rs1 → contiguousFrom (endOf o rs1) rs2 →
      contiguousFrom o (rs1 ++ rs2) := by
  induction rs1 with
  | nil => intro o _ h2; simpa [endOf] using h2
  | cons a rs ih =>
    intro o h1 h2
    obtain ⟨ha, hb, hc⟩ := h1
    exact ⟨ha, hb, ih (a.2 + 1) hc (by simpa [endOf] using h2)⟩

theorem chunkRangesAux_spec (chunkSize : Nat) (hC : 0 < chunkSize) :
    ∀ fuel total offset, total - offset ≤ fuel →
      contiguousFrom offset (chunkRangesAux total chunkSize offset) ∧
      endOf offset (chunkRangesAux total chunkSize offset) = max offset total := by
  intro fuel
  induction fuel with
  | zero =>
    intro total offset h
    have hge : ¬ (offset < total) := by omega
    rw [chunkRangesAux, dif_neg (by tauto)]
    constructor
    · trivial
    · simp only [endOf]; omega
  | succ n ih =>
    intro total offset h
    by_cases hlt : offset < total
    · rw [chunkRangesAux, dif_pos ⟨hC, hlt⟩]
      have he1 : offset < min (offset + chunkSize) total := lt_min (by omega) hlt
      have he2 : min (offset + chunkSize) total ≤ total := min_le_right _ _
      have hrec := ih total (min (offset + chunkSize) total) (by omega)
      have hsucc : min (offset + chunkSize) total - 1 + 1 = min (offset + chunkSize) total := by
        omega
      refine ⟨⟨rfl, by omega, ?_⟩, ?_⟩
      · simpa [hsucc] using hrec.1
      · simp only [endOf]
        rw [hsucc, hrec.2]
        omega
    · rw [chunkRangesAux, dif_neg (by tauto)]
      constructor
      · trivial
      · simp only [endOf]; omega

theorem chunkRangesAux_length (chunkSize : Nat) (hC : 0 < chunkSize) :
    ∀ fuel total offset, total - offset ≤ fuel →
      (chunkRangesAux total chunkSize offset).length =
        (total - offset + chunkSize - 1) / chunkSize := by
  intro fuel
  induction fuel with
  | zero =>
    intro total offset h
    rw [chunkRangesAux, dif_neg (by omega)]
    have h0 : total - offset = 0 := by omega
    rw [h0]
    simp only [List.length_nil]
    exact (Nat.div_eq_of_lt (by omega)).symm
  | succ n ih =>
    intro total offset h
    by_cases hlt : offset < total
    · rw [chunkRangesAux, dif_pos ⟨hC, hlt⟩]
      have he1 : offset < min (offset + chunkSize) total := lt_min (by omega) hlt
      have hrec := ih total (min (offset + chunkSize) total) (by omega)
      simp only [List.length_cons]
      rw [hrec]
      by_cases hcase : offset + chunkSize ≤ total
      · have hmin : min (offset + chunkSize) total = offset + chunkSize :=
          min_eq_left hcase
        rw [hmin]
        have heq : total - offset + chunkSize - 1 =
            (total - (offset + chunkSize) + chunkSize - 1) + chunkSize := by omega
        rw [heq, Nat.add_div_right _ hC]
      · have hmin : min (offset + chunkSize) total = total := by omega
        rw [hmin]
        have h1 : total - total + chunkSize - 1 < chunkSize := by omega
        rw [Nat.div_eq_of_lt h1]
        have hd : 1 ≤ total - offset ∧ total - offset ≤ chunkSize := by omega
        have heq : total - offset + chunkSize - 1 = (total - offset - 1) + chunkSize := by
          omega
        rw [heq, Nat.add_div_right _ hC, Nat.div_eq_of_lt (by omega)]
    · rw [chunkRangesAux, dif_neg (by tauto)]
      have h0 : total - offset = 0 := by omega
      rw [h0]
      simp only [List.length_nil]
      exact (Nat.div_eq_of_lt (by omega)).symm

theorem chunkRanges_spec (total chunkSize : Nat) (hC : 0 < chunkSize) :
    contiguousFrom 0 (chunkRanges total chunkSize) ∧
    endOf 0 (chunkRanges total chunkSize) = total := by
  have := chunkRangesAux_spec chunkSize hC (total - 0) total 0 (Nat.le_refl _)
  simp only [chunkRanges]
  refine ⟨this.1, ?_⟩
  rw [this.2]
  omega

theorem chunkRanges_length (total chunkSize : Nat) (hC : 0 < chunkSize) :
    (chunkRanges total chunkSize).length = (total + chunkSize - 1) / chunkSize := by
  have := chunkRangesAux_length chunkSize hC (total - 0) total 0 (Nat.le_refl _)
  simp only [chunkRanges]
  simpa using this

theorem pathStreamRanges_spec (lens : List Nat) (hpos : ∀ l ∈ lens, 0 < l) :
    ∀ offset, contiguousFrom offset (pathStreamRanges offset lens) ∧
      endOf offset (pathStreamRanges offset lens) = offset + lens.sum := by
  induction lens with
  | nil => intro offset; simp [pathStreamRanges, contiguousFrom, endOf]
  | cons l ls ih =>
    intro offset
    have hl : 0 < l := hpos l (List.mem_cons_self l ls)
    have ih' := ih (fun x hx => hpos x (List.mem_cons_of_mem l hx)) (offset + l)
    have hstep : offset + l - 1 + 1 = offset + l := by omega
    constructor
    · refine ⟨rfl, by omega, ?_⟩
      simpa [hstep] using ih'.1
    · simp only [pathStreamRanges, endOf, hstep]
      rw [ih'.2]
      simp [List.sum_cons]
      omega

theorem drainPending_spec (C : Nat) (hC : 0 < C) :
    ∀ fuel offset pending, pending ≤ fuel →
      contiguousFrom offset (drainPending C offset pending).1 ∧
      endOf offset (drainPending C offset pending).1 = (drainPending C offset pending).2.1 ∧
      (drainPending C offset pending).2.1 + (drainPending C offset pending).2.2
        = offset + pending ∧
      (drainPending C offset pending).2.2 < C := by
  intro fuel
  induction fuel with
  | zero =>
    intro offset pending h
    have hp : pending = 0 := by omega
    rw [drainPending, dif_neg (by omega)]
    refine ⟨trivial, rfl, rfl, ?_⟩
    show pending < C
    omega
  | succ n ih =>
    intro offset pending h
    by_cases hle : C ≤ pending
    · rw [drainPending]
      simp only [dif_pos (⟨hC, hle⟩ : 0 < C ∧ C ≤ pending)]
      have hrec := ih (offset + C) (pending - C) (by omega)
      have hstep : offset + C - 1 + 1 = offset + C := by omega
      refine ⟨⟨rfl, by omega, ?_⟩, ?_, by omega, hrec.2.2.2⟩
      · simpa [hstep] using hrec.1
      · simp only [endOf, hstep]
        exact hrec.2.1
    · rw [drainPending, dif_neg (by tauto)]
      refine ⟨trivial, rfl, rfl, ?_⟩
      show pending < C
      omega

theorem urlStreamLoop_spec (C : Nat) (hC : 0 < C) (ls : List Nat) :
    ∀ offset pending, pending < C →
      contiguousFrom offset (urlStreamLoop C offset pending ls).1 ∧
      endOf offset (urlStreamLoop C offset pending ls).1
        = (urlStreamLoop C offset pending ls).2.1 ∧
      (urlStreamLoop C offset pending ls).2.1 + (urlStreamLoop C offset pending ls).2.2
        = offset + pending + ls.sum ∧
      (urlStreamLoop C offset pending ls).2.2 < C := by
  induction ls with
  | nil =>
    intro offset pending hp
    exact ⟨trivial, rfl, by simp [urlStreamLoop], hp⟩
  | cons l ls ih =>
    intro offset pending _
    have hd := drainPending_spec C hC (pending + l) offset (pending + l) (Nat.le_refl _)
    have hrest := ih (drainPending C offset (pending + l)).2.1
      (drainPending C offset (pending + l)).2.2 hd.2.2.2
    simp only [urlStreamLoop]
    refine ⟨?_, ?_, ?_, hrest.2.2.2⟩
    · refine contiguousFrom_append _ _ _ hd.1 ?_
      rw [hd.2.1]
      exact hrest.1
    · rw [endOf_append, hd.2.1, hrest.2.1]
    · have h1 := hrest.2.2.1
      have h2 := hd.2.2.1
      simp only [List.sum_cons]
      omega

theorem urlStreamRanges_spec (declaredSize C : Nat) (hC : 0 < C) (lens : List Nat)
    (hsum : lens.sum = declaredSize) (hpos : 0 < declaredSize) :
    contiguousFrom 0 (urlStreamRanges declaredSize C lens) ∧
    endOf 0 (urlStreamRanges declaredSize C lens) = declaredSize := by
  have hloop := urlStreamLoop_spec C hC lens 0 0 hC
  simp only [urlStreamRanges]
  by_cases hp : 0 < (urlStreamLoop C 0 0 lens).2.2
  · rw [if_pos hp]
    have hsum2 := hloop.2.2.1
    have hoff : (urlStreamLoop C 0 0 lens).2.1 ≤ declaredSize - 1 := by omega
    constructor
    · refine contiguousFrom_append _ _ _ hloop.1 ?_
      rw [hloop.2.1]
      exact ⟨rfl, hoff, trivial⟩
    · rw [endOf_append, hloop.2.1]
      simp only [endOf]
      omega
  · rw [if_neg hp]
    have hsum2 := hloop.2.2.1
    refine ⟨hloop.1, ?_⟩
    rw [hloop.2.1]
    omega

/-- ASCII lowercasing of one character, as used by `toLowerCase()` on the
extension lookup and the case-insensitive scheme regex. -/
def asciiLower (c : Char) : Char :=
  if 'A' ≤ c ∧ c ≤ 'Z' then Char.ofNat (c.toNat + 32) else c

/-- Bool test that the first list is an initial run of the second. -/
def leadsWith : List Char → List Char → Bool
  | [], _ => true
  | _ :: _, [] => false
  | a :: as, b :: bs => a == b && leadsWith as bs

/-- The scheme test `/^https?:\/\//i.test(href)` from
`uploadAttachmentFromUrl`. -/
def hrefIsHttp (href : String) : Bool :=
  let l := href.toList.map asciiLower
  leadsWith ("http://".toList) l || leadsWith ("https://".toList) l

/-- Splitting a character list at every separator character, keeping empty
segments, like the JS `String.split`. -/
def splitChars (p : Char → Bool) : List Char → List (List Char)
  | [] => [[]]
  | c :: rest =>
    if p c then [] :: splitChars p rest
    else
      match splitChars p rest with
      | [] => [[c]]
      | g :: gs => (c :: g) :: gs

/-- Whitespace trimming at both ends, the JS `trim()`. -/
def trimChars (cs : List Char) : List Char :=
  ((cs.dropWhile Char.isWhitespace).reverse.dropWhile Char.isWhitespace).reverse

/-- Last slash-separated segment: `s.split('/').pop()` (empty when the
string ends in a slash). -/
def lastSlashSeg (s : String) : String :=
  String.mk (((splitChars (fun c => c == '/') s.toList).getLast?).getD [])

/-- Modelled from the spec: the URL-variant filename default takes the
basename of the URL's path (`path.basename(new URL(href).pathname)`).
WHATWG URL parsing is a platform primitive missing from the repository;
it is approximated by dropping any query or fragment and taking the last
slash segment, faithful to the spec's "URL path basename". -/
def urlBasename (href : String) : String :=
  lastSlashSeg (String.mk (href.toList.takeWhile (fun c => !(c == '?' || c == '#'))))

/-- Modelled from the spec: Node's base64 rendering of a byte buffer
(`buf.toString('base64')`, RFC 4648 with padding), a platform primitive
used by the inline-attach calls. -/
def base64Table : List Char :=
  "ABCDEFGHIJKLMNOPQRSTUVWXYZabcdefghijklmnopqrstuvwxyz0123456789+/".toList

def base64Char (n : Nat) : Char := (base64Table.getD n 'A')

def base64Chunks : List Nat → List Char
  | [] => []
  | [a] => [base64Char (a / 4), base64Char (a % 4 * 16), '=', '=']
  | [a, b] => [base64Char (a / 4), base64Char (a % 4 * 16 + b / 16),
      base64Char (b % 16 * 4), '=']
  | a :: b :: c :: rest =>
    base64Char (a / 4) :: base64Char (a % 4 * 16 + b / 16) ::
      base64Char (b % 16 * 4 + c / 64) :: base64Char (c % 64) :: base64Chunks rest

def base64Encode (bytes : List Nat) : String := String.mk (base64Chunks bytes)

/-- Modelled from the spec: `Buffer.from(string)` UTF-8 encoding, a
platform primitive used when an in-memory attachment is given as a string. -/
def utf8Bytes (c : Char) : List Nat :=
  let n := c.toNat
  if n < 128 then [n]
  else if n < 2048 then [192 + n / 64, 128 + n % 64]
  else if n < 65536 then [224 + n / 4096, 128 + n / 64 % 64, 128 + n % 64]
  else [240 + n / 262144, 128 + n / 4096 % 64, 128 + n / 64 % 64, 128 + n % 64]

def stringBytes (s : String) : List Nat := s.toList.flatMap utf8Bytes

/-- The extension table of `utils.getContentTypeFromFileName`. -/
def mimeTypes : List (String × String) := [
  ("pdf", "application/pdf"),
  ("doc", "application/msword"),
  ("docx", "application/vnd.openxmlformats-officedocument.wordprocessingml.document"),
  ("xls", "application/vnd.ms-excel"),
  ("xlsx", "application/vnd.openxmlformats-officedocument.spreadsheetml.sheet"),
  ("ppt", "application/vnd.ms-powerpoint"),
  ("pptx", "application/vnd.openxmlformats-officedocument.presentationml.presentation"),
  ("jpg", "image/jpeg"),
  ("jpeg", "image/jpeg"),
  ("png", "image/png"),
  ("gif", "image/gif"),
  ("bmp", "image/bmp"),
  ("svg", "image/svg+xml"),
  ("webp", "image/webp"),
  ("tiff", "image/tiff"),
  ("tif", "image/tiff"),
  ("txt", "text/plain"),
  ("html", "text/html"),
  ("htm", "text/html"),
  ("css", "text/css"),
  ("csv", "text/csv"),
  ("xml", "text/xml"),
  ("json", "application/json"),
  ("zip", "application/zip"),
  ("rar", "application/x-rar-compressed"),
  ("7z", "application/x-7z-compressed"),
  ("tar", "application/x-tar"),
  ("gz", "application/gzip"),
  ("bz2", "application/x-bzip2"),
  ("mp3", "audio/mpeg"),
  ("wav", "audio/wav"),
  ("ogg", "audio/ogg"),
  ("flac", "audio/flac"),
  ("aac", "audio/aac"),
  ("mp4", "video/mp4"),
  ("avi", "video/x-msvideo"),
  ("mov", "video/quicktime"),
  ("wmv", "video/x-ms-wmv"),
  ("flv", "video/x-flv"),
  ("webm", "video/webm"),
  ("mkv", "video/x-matroska"),
  ("exe", "application/x-msdownload"),
  ("dll", "application/x-msdownload"),
  ("apk", "application/vnd.android.package-archive"),
  ("dmg", "application/x-apple-diskimage"),
  ("iso", "application/x-iso9660-image"),
  ("jar", "application/java-archive"),
  ("msi", "application/x-msi"),
  ("bin", "application/octet-stream")]

/-- `utils.getContentTypeFromFileName`: lowercase the final dot-separated
segment and look it up, defaulting to octet-stream. -/
def getContentTypeFromFileName (fileName : String) : String :=
  let extension := String.mk
    ((((splitChars (fun c => c == '.') fileName.toList).getLast?).getD []).map asciiLower)
  if extension = "" then "application/octet-stream"
  else
    match mimeTypes.lookup extension with
    | some t => t
    | none => "application/octet-stream"

/-- The `to` / `cc` / `bcc` input: a string, an array of strings, or
absent; JS truthiness makes the empty string behave like absent. -/
inductive StrOrList where
  | str (s : String)
  | list (l : List String)
  | undef
deriving DecidableEq

def strOrListFalsy : StrOrList → Bool
  | .str s => s == ""
  | .list _ => false
  | .undef => true

structure Recipient where
  address : String
deriving DecidableEq

/-- `MailClient.buildRecipients`: split each part on semicolons and commas,
trim, drop empties, dedupe preserving first occurrence
(`Array.from(new Set(addresses))`), returning `undefined` when nothing
remains.  The JS regex split `/[;,]+/` differs from the single-separator
split used here only by extra empty segments, which the emptiness filter
drops, so the resulting address list is identical. -/
def buildRecipients (input : StrOrList) : Option (List Recipient) :=
  if strOrListFalsy input then none
  else
    let parts : List String :=
      match input with
      | .str s => [s]
      | .list l => l
      | .undef => []
    let addresses := parts.flatMap fun p =>
      ((splitChars (fun c => c == ';' || c == ',') p.toList).map
        (fun g => String.mk (trimChars g))).filter (fun a => a != "")
    let unique := addresses.eraseDups
    if unique.isEmpty then none else some (unique.map Recipient.mk)

/-- An attachment as the caller supplies it; `content` keeps the JS
string-vs-Buffer distinction because an empty string is falsy there. -/
inductive ContentVal where
  | str (s : String)
  | buf (bytes : List Nat)
deriving DecidableEq

def contentBytes : ContentVal → List Nat
  | .str s => stringBytes s
  | .buf b => b

def truthyContent : Option ContentVal → Bool
  | none => false
  | some (.str s) => s != ""
  | some (.buf _) => true

def truthyOptStr : Option String → Bool
  | none => false
  | some s => s != ""

structure AttachmentSpec where
  filename : Option String := none
  content : Option ContentVal := none
  path : Option String := none
  href : Option String := none
deriving DecidableEq

/-- Filename resolution from the head of the `uploadAttachments` loop:
explicit filename, else path basename, else URL basename, else the
literal fallback. -/
def resolveFileName (a : AttachmentSpec) : String :=
  let given := (a.filename).getD ""
  if given != "" then given
  else if truthyOptStr a.path then
    let n := lastSlashSeg ((a.path).getD "")
    if n = "" then "attachment" else n
  else if truthyOptStr a.href then
    let n := urlBasename ((a.href).getD "")
    if n = "" then "attachment" else n
  else "attachment"

/-- Result of `fs.stat`. -/
structure StatInfo where
  isFile : Bool
  size : Nat
deriving DecidableEq

/-- A HEAD response: `ok` plus the parsed non-negative content-length, when
the header is present and parses. -/
structure HeadResp where
  ok : Bool
  contentLength : Option Nat
deriving DecidableEq

/-- A GET response: `ok`, whether a body stream exists, the parsed
content-length header, and the byte chunks the stream delivers. -/
structure GetResp where
  ok : Bool
  hasBody : Bool
  contentLength : Option Nat
  bodyChunks : List (List Nat)
deriving DecidableEq

/-- Per-attachment environment: what the filesystem and network feed the
code on this run.  `stat = none` means `fs.stat` threw;
`headResp = none` means the HEAD fetch threw (caught by the source). -/
structure AttEnv where
  stat : Option StatInfo := none
  fileBytes : List Nat := []
  fileStreamChunks : List (List Nat) := []
  headResp : Option HeadResp := none
  smallGet : GetResp := ⟨true, true, none, []⟩
  streamGet : GetResp := ⟨true, true, none, []⟩
deriving DecidableEq

inductive MailError where
  | attachmentTooLarge
  | noRecipients
  | idRequired
  | messageNotFound
deriving DecidableEq

/-- One observable interaction with the Graph API, an upload session, or a
remote URL. -/
inductive NetEvent where
  | createDraft (subject : String)
  | sendDraft (messageId : String)
  | headReq (href : String)
  | getReq (href : String)
  | inlineAttach (messageId name contentBytes contentType : String)
  | createSession (messageId name : String) (size : Nat) (contentType : String)
  | putRange (start endInclusive total : Nat)
  | getMessage (id select : String)
  | listByInternetId (id select : String)
  | getAttachments (id : String)
deriving DecidableEq

/-- `MailClient.uploadLargeContent`: re-normalize the chunk size, enforce
the 150 MiB ceiling, create an upload session declaring `content.length`,
then PUT the ranges of the chunk loop. -/
def uploadLargeContent (cfgChunkSize : Nat) (messageId fileName : String)
    (content : List Nat) (contentType : String) : List NetEvent × Option MailError :=
  let chunkSize := normalizeChunkSizeNat cfgChunkSize
  if content.length > MAX_ATTACHMENT_SIZE then ([], some .attachmentTooLarge)
  else
    (NetEvent.createSession messageId fileName content.length contentType ::
      (chunkRanges content.length chunkSize).map
        (fun r => NetEvent.putRange r.1 r.2 content.length), none)

/-- `MailClient.uploadLargeFileByPath`: ceiling check, session declaring
`fileSize`, then one PUT per chunk the file stream delivers (the normalized
chunk size only sets the stream's `highWaterMark`, so the delivered chunk
lengths are environment data). -/
def uploadLargeFileByPath (cfgChunkSize : Nat) (messageId fileName contentType : String)
    (fileSize : Nat) (streamChunks : List (List Nat)) : List NetEvent × Option MailError :=
  if fileSize > MAX_ATTACHMENT_SIZE then ([], some .attachmentTooLarge)
  else
    (NetEvent.createSession messageId fileName fileSize contentType ::
      (pathStreamRanges 0 (streamChunks.map List.length)).map
        (fun r => NetEvent.putRange r.1 r.2 fileSize), none)

/-- Size learned from the HEAD probe (lines 250-262 of the source): present
only when the probe did not throw, was `ok`, and carried a parseable
non-negative content-length. -/
def headSize : Option HeadResp → Option Nat
  | some r => if r.ok then r.contentLength else none
  | none => none

/-- The small-file URL branch: download fully, re-check the ceiling against
the actual bytes, attach inline; a non-ok GET silently skips. -/
def urlSmallDownload (messageId fileName href contentType : String) (env : AttEnv) :
    List NetEvent × Option MailError :=
  let ev := [NetEvent.headReq href, NetEvent.getReq href]
  if ¬ env.smallGet.ok then (ev, none)
  else
    let buf := (env.smallGet.bodyChunks).flatten
    if buf.length > MAX_ATTACHMENT_SIZE then (ev, some .attachmentTooLarge)
    else
      (ev ++ [NetEvent.inlineAttach messageId fileName (base64Encode buf) contentType],
        none)

/-- The unknown-size tail of the URL branch (lines 368-394): buffer the
whole stream, then attach inline or chunk-upload by the observed length.
The source checks the running total against the ceiling after each chunk;
the running totals are monotone, so the check trips iff the final total
exceeds the ceiling. -/
def urlBufferWhole (threshold cfgChunkSize : Nat)
    (messageId fileName contentType : String) (g : GetResp) (ev : List NetEvent) :
    List NetEvent × Option MailError :=
  let all := g.bodyChunks.flatten
  if all.length > MAX_ATTACHMENT_SIZE then (ev, some .attachmentTooLarge)
  else if all.length ≤ threshold then
    (ev ++ [NetEvent.inlineAttach messageId fileName (base64Encode all) contentType],
      none)
  else
    let r := uploadLargeContent cfgChunkSize messageId fileName all contentType
    (ev ++ r.1, r.2)

/-- The streaming entry of the URL branch (line 287 onward): GET, silently
skip on non-ok or missing body, complete the size from the GET header,
re-check the ceiling, then either stream into a session (size known and
over threshold) or buffer the whole stream. -/
def urlStreamDownload (threshold cfgChunkSize : Nat)
    (messageId fileName href contentType : String) (env : AttEnv)
    (sizeFromHead : Option Nat) : List NetEvent × Option MailError :=
  let ev := [NetEvent.headReq href, NetEvent.getReq href]
  let g := env.streamGet
  if ¬ g.ok ∨ ¬ g.hasBody then (ev, none)
  else
    let size : Option Nat :=
      match sizeFromHead with
      | some n => some n
      | none => g.contentLength
    match size with
    | some n =>
      if n > MAX_ATTACHMENT_SIZE then (ev, some .attachmentTooLarge)
      else if n > threshold then
        let chunkSize := normalizeChunkSizeNat cfgChunkSize
        (ev ++ NetEvent.createSession messageId fileName n contentType ::
          (urlStreamRanges n chunkSize (g.bodyChunks.map List.length)).map
            (fun r => NetEvent.putRange r.1 r.2 n), none)
      else urlBufferWhole threshold cfgChunkSize messageId fileName contentType g ev
    | none => urlBufferWhole threshold cfgChunkSize messageId fileName contentType g ev

/-- `MailClient.uploadAttachmentFromUrl`: skip non-http(s) schemes, probe
with HEAD, fail on a declared size over the ceiling before any GET, and
dispatch to the small-download or streaming branch. -/
def uploadAttachmentFromUrl (threshold cfgChunkSize : Nat)
    (messageId fileName href contentType : String) (env : AttEnv) :
    List NetEvent × Option MailError :=
  if ¬ hrefIsHttp href then ([], none)
  else
    match headSize env.headResp with
    | some n =>
      if n > MAX_ATTACHMENT_SIZE then
        ([NetEvent.headReq href], some .attachmentTooLarge)
      else if n ≤ threshold then
        urlSmallDownload messageId fileName href contentType env
      else
        urlStreamDownload threshold cfgChunkSize messageId fileName href contentType env
          (some n)
    | none =>
      urlStreamDownload threshold cfgChunkSize messageId fileName href contentType env
        none

/-- The body of the `for await` loop of `MailClient.uploadAttachments`:
skip data-less specs, resolve filename and content type, then dispatch on
the first truthy source among `content`, `path`, `href`. -/
def processAttachment (threshold cfgChunkSize : Nat) (messageId : String)
    (a : AttachmentSpec) (env : AttEnv) : List NetEvent × Option MailError :=
  if ¬ truthyContent a.content ∧ ¬ truthyOptStr a.path ∧ ¬ truthyOptStr a.href then
    ([], none)
  else
    let fileName := resolveFileName a
    let contentType := getContentTypeFromFileName fileName
    if truthyContent a.content then
      let buf := contentBytes ((a.content).getD (.buf []))
      if buf.length > MAX_ATTACHMENT_SIZE then ([], some .attachmentTooLarge)
      else if buf.length ≤ threshold then
        ([NetEvent.inlineAttach messageId fileName (base64Encode buf) contentType],
          none)
      else uploadLargeContent cfgChunkSize messageId fileName buf contentType
    else if truthyOptStr a.path then
      match env.stat with
      | none => ([], none)
      | some st =>
        if ¬ st.isFile ∨ st.size = 0 then ([], none)
        else if st.size > MAX_ATTACHMENT_SIZE then ([], some .attachmentTooLarge)
        else if st.size ≤ threshold then
          ([NetEvent.inlineAttach messageId fileName (base64Encode env.fileBytes)
            (getContentTypeFromFileName fileName)], none)
        else
          uploadLargeFileByPath cfgChunkSize messageId fileName contentType st.size
            env.fileStreamChunks
    else if truthyOptStr a.href then
      uploadAttachmentFromUrl threshold cfgChunkSize messageId fileName
        ((a.href).getD "") contentType env
    else ([], none)

/-- `MailClient.uploadAttachments`: sequential processing, stopping at the
first raised failure. -/
def uploadAttachments (threshold cfgChunkSize : Nat) (messageId : String) :
    List (AttachmentSpec × AttEnv) → List NetEvent × Option MailError
  | [] => ([], none)
  | (a, env) :: rest =>
    let r := processAttachment threshold cfgChunkSize messageId a env
    match r.2 with
    | some e => (r.1, some e)
    | none =>
      let r2 := uploadAttachments threshold cfgChunkSize messageId rest
      (r.1 ++ r2.1, r2.2)

structure MailOptions where
  subject : String
  -- the source's field is named `to`, a reserved token in Lean
  toAddr : StrOrList
  cc : StrOrList := .undef
  bcc : StrOrList := .undef
  text : Option String := none
  html : Option String := none
  attachments : List AttachmentSpec := []
deriving DecidableEq

/-- Environment of one send: the draft ids the service returns and the
per-attachment environments, positionally matching `attachments`. -/
structure SendEnv where
  draftId : String
  internetMessageId : String
  attEnvs : List AttEnv
deriving DecidableEq

structure SendResult where
  id : String
  internetMessageId : String
deriving DecidableEq

/-- The `try` body of `MailClient.sendMail`: recipient check, draft
creation, attachment upload, send.  The cc/bcc recipient lists and the
body fields only shape the draft payload and are immaterial to the trace
model. -/
def sendMailCore (threshold cfgChunkSize : Nat) (mail : MailOptions) (env : SendEnv) :
    List NetEvent × Except MailError SendResult :=
  match buildRecipients mail.toAddr with
  | none => ([], .error .noRecipients)
  | some _ =>
    let r := uploadAttachments threshold cfgChunkSize env.draftId
      (mail.attachments.zip env.attEnvs)
    match r.2 with
    | some e => (NetEvent.createDraft mail.subject :: r.1, .error e)
    | none =>
      (NetEvent.createDraft mail.subject :: r.1 ++ [NetEvent.sendDraft env.draftId],
        .ok ⟨env.draftId, env.internetMessageId⟩)

/-- `MailClient.sendMail` with its catch block: any failure is passed to
the logger's error hook exactly once (the middle component collects the
hook's invocations) and then re-thrown unchanged. -/
def sendMail (threshold cfgChunkSize : Nat) (mail : MailOptions) (env : SendEnv) :
    List NetEvent × List MailError × Except MailError SendResult :=
  let r := sendMailCore threshold cfgChunkSize mail env
  match r.2 with
  | .error e => (r.1, [e], .error e)
  | .ok v => (r.1, [], .ok v)

inductive IdType where
  | graph
  | internetMessageId
deriving DecidableEq

structure GetMailOptions where
  select : Option (List String) := none
  includeAttachments : Bool := false
  idType : Option IdType := none
deriving DecidableEq

/-- Environment of one retrieval: the id of the first message the
internet-message-id filter query returns, if any. -/
structure GetMailEnv where
  listFirstId : Option String := none
deriving DecidableEq

structure GetMailResult where
  id : String
  attachmentsIncluded : Bool
deriving DecidableEq

def defaultSelectFields : String :=
  "id,subject,bodyPreview,body,sentDateTime,receivedDateTime,from,toRecipients,ccRecipients,bccRecipients,hasAttachments"

/-- The regex `^<[^>]+@[^>]+>$` from `getMailById`: an angle-bracketed
string whose interior contains no closing bracket and has an at-sign with
at least one character on each side. -/
def looksLikeInternetId (s : String) : Bool :=
  match s.toList with
  | [] => false
  | c :: rest =>
    c == '<' &&
    (match rest.getLast? with
     | some d =>
       d == '>' &&
       (let mid := rest.dropLast
        mid.all (fun x => x != '>') &&
        (List.range mid.length).any (fun j =>
          mid.getD j ' ' == '@' && decide (0 < j) && decide (j + 1 < mid.length)))
     | none => false)

/-- `MailClient.getMailById`: reject an empty id before any request, then
query either by internet message id (OData filter; single quotes in the
id are escaped in the filter string) or by Graph message id, optionally
following up with an attachment listing. -/
def getMailById (id : String) (opts : GetMailOptions) (env : GetMailEnv) :
    List NetEvent × Except MailError GetMailResult :=
  if id = "" then ([], .error .idRequired)
  else
    let selectFields :=
      match opts.select with
      | some l => if 0 < l.length then String.intercalate "," l else defaultSelectFields
      | none => defaultSelectFields
    let useInternet :=
      opts.idType == some IdType.internetMessageId || looksLikeInternetId id
    if useInternet then
      match env.listFirstId with
      | none => ([NetEvent.listByInternetId id selectFields], .error .messageNotFound)
      | some mid =>
        if opts.includeAttachments then
          ([NetEvent.listByInternetId id selectFields, NetEvent.getAttachments mid],
            .ok ⟨mid, true⟩)
        else ([NetEvent.listByInternetId id selectFields], .ok ⟨mid, false⟩)
    else
      if opts.includeAttachments then
        ([NetEvent.getMessage id selectFields, NetEvent.getAttachments id],
          .ok ⟨id, true⟩)
      else ([NetEvent.getMessage id selectFields], .ok ⟨id, false⟩)

theorem endOf_pos_ne_nil {rs : List (Nat × Nat)} (h : endOf 0 rs ≠ 0) : rs ≠ [] := by
  intro hrs
  subst hrs
  exact h rfl

/-- C2: for every total length T > 0 and every normalized chunk size C > 0,
the ranges produced by the chunked-upload loop of `uploadLargeContent` have
strictly increasing end offsets, their union is exactly the byte interval
[0, T-1], and their count equals ceil(T / C), written (T + C - 1) / C. -/
theorem C2_chunk_loop_ranges (T C : Nat) (hT : 0 < T) (hC : 0 < C) :
    List.Pairwise (fun a b => a.2 < b.2) (chunkRanges T C) ∧
    (∀ b : Nat, (∃ r ∈ chunkRanges T C, r.1 ≤ b ∧ b ≤ r.2) ↔ b < T) ∧
    (chunkRanges T C).length = (T + C - 1) / C := by
  obtain ⟨hcont, hend⟩ := chunkRanges_spec T C hC
  refine ⟨contiguousFrom_pairwise_ends _ 0 hcont, ?_, chunkRanges_length T C hC⟩
  intro b
  constructor
  · rintro ⟨r, hr, hr1, hr2⟩
    have := contiguousFrom_le _ 0 hcont r hr
    omega
  · intro hb
    exact contiguousFrom_cover _ 0 hcont b (Nat.zero_le b) (by omega)

theorem C2_chunk_loop_ranges_witness :
    0 < 5 ∧ 0 < 2 ∧
    (List.Pairwise (fun a b => a.2 < b.2) (chunkRanges 5 2) ∧
     (∀ b : Nat, (∃ r ∈ chunkRanges 5 2, r.1 ≤ b ∧ b ≤ r.2) ↔ b < 5) ∧
     (chunkRanges 5 2).length = (5 + 2 - 1) / 2) :=
  ⟨by decide, by decide, C2_chunk_loop_ranges 5 2 (by decide) (by decide)⟩

theorem tmod_eq_zero_iff_dvd (a b : Int) : a.tmod b = 0 ↔ b ∣ a := by
  constructor
  · intro h
    refine ⟨a.tdiv b, ?_⟩
    have h2 := Int.tdiv_add_tmod a b
    rw [h, add_zero] at h2
    exact h2.symm
  · rintro ⟨c, rfl⟩
    rcases eq_or_ne b 0 with rfl | hb
    · simp [Int.tmod]
    · have h2 := Int.tdiv_add_tmod (b * c) b
      rw [Int.mul_tdiv_cancel_left c hb] at h2
      omega

/-- C3 (amended): for every positive integer configuration value x, the
chunk-size normalization of the constructor returns a positive multiple of
320 KiB; and for every x that is already a multiple of 320 KiB (the JS
remainder `x % base` is 0), the result is at most x.  The positivity part
fails for non-positive multiples such as x = 0, which the code leaves
unchanged. -/
theorem C3_normalize_chunk (x : Int) :
    (0 < x → 0 < normalizeChunkSize x ∧ protocolBase ∣ normalizeChunkSize x) ∧
    (x.tmod protocolBase = 0 → normalizeChunkSize x ≤ x) := by
  constructor
  · intro hx
    by_cases h : x.tmod protocolBase = 0
    · rw [normalizeChunkSize, if_neg (by simp [h])]
      exact ⟨hx, (tmod_eq_zero_iff_dvd x protocolBase).mp h⟩
    · rw [normalizeChunkSize, if_pos h]
      constructor
      · have hb : (0 : Int) < protocolBase := by decide
        exact lt_of_lt_of_le hb (le_max_left _ _)
      · rcases le_total protocolBase (x.fdiv protocolBase * protocolBase) with hle | hle
        · rw [max_eq_right hle]
          exact dvd_mul_left _ _
        · rw [max_eq_left hle]
  · intro h
    rw [normalizeChunkSize, if_neg (by simp [h])]

/-- C3 counterexample: the configuration value 0 is an integer for which
the normalization does not return a positive multiple of 320 KiB — the
code leaves multiples (including 0) unchanged, so the result is 0. -/
theorem C3_counterexample :
    normalizeChunkSize 0 = 0 ∧ ¬ (0 < normalizeChunkSize 0) := by decide

theorem C3_normalize_chunk_witness :
    ((0 : Int) < 700000 ∧ 0 < normalizeChunkSize 700000 ∧
      protocolBase ∣ normalizeChunkSize 700000) ∧
    ((327680 : Int).tmod protocolBase = 0 ∧ normalizeChunkSize 327680 ≤ 327680) :=
  ⟨⟨by decide, (C3_normalize_chunk 700000).1 (by decide)⟩,
   ⟨by decide, (C3_normalize_chunk 327680).2 (by decide)⟩⟩

/-- C4: in each chunked-transfer variant — buffer (`uploadLargeContent`'s
loop), local path (`uploadLargeFileByPath`'s stream loop), and streaming
URL (the drain loop plus final PUT) — the ranges sent are contiguous from
offset 0 (each range starts exactly one past the previous range's
inclusive end: no gaps, no overlaps), the start offsets are strictly
ascending, and the final range's inclusive end equals the declared total
length minus one.  The stream-fed variants assume what the runtime
guarantees: stream chunks are nonempty and deliver exactly the declared
byte count. -/
theorem C4_ranges_contiguous (C total fileSize declaredSize : Nat)
    (lens lens2 : List Nat) :
    (0 < C → 0 < total →
      contiguousFrom 0 (chunkRanges total C) ∧
      List.Pairwise (fun a b => a.1 < b.1) (chunkRanges total C) ∧
      (chunkRanges total C).getLast?.map Prod.snd = some (total - 1)) ∧
    ((∀ l ∈ lens, 0 < l) → lens.sum = fileSize → 0 < fileSize →
      contiguousFrom 0 (pathStreamRanges 0 lens) ∧
      List.Pairwise (fun a b => a.1 < b.1) (pathStreamRanges 0 lens) ∧
      (pathStreamRanges 0 lens).getLast?.map Prod.snd = some (fileSize - 1)) ∧
    (0 < C → lens2.sum = declaredSize → 0 < declaredSize →
      contiguousFrom 0 (urlStreamRanges declaredSize C lens2) ∧
      List.Pairwise (fun a b => a.1 < b.1) (urlStreamRanges declaredSize C lens2) ∧
      (urlStreamRanges declaredSize C lens2).getLast?.map Prod.snd
        = some (declaredSize - 1)) := by
  refine ⟨?_, ?_, ?_⟩
  · intro hC hT
    obtain ⟨hcont, hend⟩ := chunkRanges_spec total C hC
    refine ⟨hcont, contiguousFrom_pairwise_starts _ 0 hcont, ?_⟩
    rw [contiguousFrom_getLast _ 0 hcont (endOf_pos_ne_nil (by omega)), hend]
  · intro hpos hsum hT
    obtain ⟨hcont, hend⟩ := pathStreamRanges_spec lens hpos 0
    rw [hsum] at hend
    refine ⟨hcont, contiguousFrom_pairwise_starts _ 0 hcont, ?_⟩
    rw [contiguousFrom_getLast _ 0 hcont (endOf_pos_ne_nil (by omega)), hend]
    simp
  · intro hC hsum hT
    obtain ⟨hcont, hend⟩ := urlStreamRanges_spec declaredSize C hC lens2 hsum hT
    refine ⟨hcont, contiguousFrom_pairwise_starts _ 0 hcont, ?_⟩
    rw [contiguousFrom_getLast _ 0 hcont (endOf_pos_ne_nil (by omega)), hend]

theorem C4_ranges_contiguous_witness :
    (0 < 2 ∧ 0 < 5 ∧ (∀ l ∈ ([3, 2] : List Nat), 0 < l) ∧
      ([3, 2] : List Nat).sum = 5) ∧
    (contiguousFrom 0 (chunkRanges 5 2) ∧
      List.Pairwise (fun a b => a.1 < b.1) (chunkRanges 5 2) ∧
      (chunkRanges 5 2).getLast?.map Prod.snd = some (5 - 1)) ∧
    (contiguousFrom 0 (pathStreamRanges 0 [3, 2]) ∧
      List.Pairwise (fun a b => a.1 < b.1) (pathStreamRanges 0 [3, 2]) ∧
      (pathStreamRanges 0 [3, 2]).getLast?.map Prod.snd = some (5 - 1)) ∧
    (contiguousFrom 0 (urlStreamRanges 5 2 [3, 2]) ∧
      List.Pairwise (fun a b => a.1 < b.1) (urlStreamRanges 5 2 [3, 2]) ∧
      (urlStreamRanges 5 2 [3, 2]).getLast?.map Prod.snd = some (5 - 1)) :=
  ⟨⟨by decide, by decide, by decide, by decide⟩,
   (C4_ranges_contiguous 2 5 5 5 [3, 2] [3, 2]).1 (by decide) (by decide),
   (C4_ranges_contiguous 2 5 5 5 [3, 2] [3, 2]).2.1 (by decide) (by decide) (by decide),
   (C4_ranges_contiguous 2 5 5 5 [3, 2] [3, 2]).2.2 (by decide) (by decide) (by decide)⟩

theorem processAttachment_buffer (threshold cfgChunkSize : Nat) (messageId : String)
    (a : AttachmentSpec) (env : AttEnv) (buf : List Nat)
    (hbuf : a.content = some (ContentVal.buf buf)) :
    processAttachment threshold cfgChunkSize messageId a env =
      (if buf.length > MAX_ATTACHMENT_SIZE then ([], some .attachmentTooLarge)
       else if buf.length ≤ threshold then
         ([NetEvent.inlineAttach messageId (resolveFileName a) (base64Encode buf)
           (getContentTypeFromFileName (resolveFileName a))], none)
       else uploadLargeContent cfgChunkSize messageId (resolveFileName a) buf
         (getContentTypeFromFileName (resolveFileName a))) := by
  unfold processAttachment
  rw [hbuf]
  simp [truthyContent, contentBytes]

def isCreateSession : NetEvent → Bool
  | NetEvent.createSession _ _ _ _ => true
  | _ => false

/-- C1 (amended): for an in-memory buffer attachment of byte length L
processed by the attachment upload step: if L is at most the threshold and
at most the 150 MiB ceiling, exactly one inline-attach call is made whose
content is the base64 encoding of the buffer; if threshold < L ≤ ceiling,
exactly one upload session is created, declaring size exactly L; and if
L exceeds the ceiling, the step fails with the attachment-too-large error
before any session-creation or inline-attach call.  (The original first
case, without the ceiling bound, fails when the configured threshold
exceeds the ceiling: the ceiling check runs first.) -/
theorem C1_buffer_dispatch (threshold cfgChunkSize : Nat) (messageId : String)
    (a : AttachmentSpec) (env : AttEnv) (buf : List Nat)
    (hbuf : a.content = some (ContentVal.buf buf)) :
    (buf.length ≤ threshold → buf.length ≤ MAX_ATTACHMENT_SIZE →
      processAttachment threshold cfgChunkSize messageId a env =
        ([NetEvent.inlineAttach messageId (resolveFileName a) (base64Encode buf)
          (getContentTypeFromFileName (resolveFileName a))], none)) ∧
    (threshold < buf.length → buf.length ≤ MAX_ATTACHMENT_SIZE →
      (processAttachment threshold cfgChunkSize messageId a env).1.head? =
        some (NetEvent.createSession messageId (resolveFileName a) buf.length
          (getContentTypeFromFileName (resolveFileName a))) ∧
      (processAttachment threshold cfgChunkSize messageId a env).1.countP
        isCreateSession = 1) ∧
    (MAX_ATTACHMENT_SIZE < buf.length →
      processAttachment threshold cfgChunkSize messageId a env
        = ([], some MailError.attachmentTooLarge)) := by
  rw [processAttachment_buffer threshold cfgChunkSize messageId a env buf hbuf]
  refine ⟨?_, ?_, ?_⟩
  · intro h1 h2
    rw [if_neg (by omega), if_pos h1]
  · intro h1 h2
    rw [if_neg (show ¬ buf.length > MAX_ATTACHMENT_SIZE by omega),
      if_neg (show ¬ buf.length ≤ threshold by omega)]
    simp only [uploadLargeContent]
    rw [if_neg (show ¬ buf.length > MAX_ATTACHMENT_SIZE by omega)]
    constructor
    · rfl
    · simp only [List.countP_cons]
      have hz : ((chunkRanges buf.length (normalizeChunkSizeNat cfgChunkSize)).map
          (fun r => NetEvent.putRange r.1 r.2 buf.length)).countP isCreateSession = 0 := by
        rw [List.countP_eq_zero]
        intro e he
        obtain ⟨r, _, rfl⟩ := List.mem_map.mp he
        simp [isCreateSession]
      rw [hz]
      simp [isCreateSession]
  · intro h1
    rw [if_pos (by omega)]

/-- C1 counterexample: with threshold configured to ceiling + 1 and a
buffer of length ceiling + 1, the length is at most the threshold, yet the
step makes no inline-attach call at all — it fails with the
attachment-too-large error with an empty call trace. -/
theorem C1_counterexample :
    (List.replicate (MAX_ATTACHMENT_SIZE + 1) 0).length ≤ MAX_ATTACHMENT_SIZE + 1 ∧
    processAttachment (MAX_ATTACHMENT_SIZE + 1) (320 * 1024) "MSG"
      ⟨some "big.bin",
        some (ContentVal.buf (List.replicate (MAX_ATTACHMENT_SIZE + 1) 0)),
        none, none⟩ {}
      = ([], some MailError.attachmentTooLarge) := by
  constructor
  · simp
  · rw [processAttachment_buffer _ _ _ _ _ _ rfl]
    rw [if_pos (by simp)]

theorem C1_buffer_dispatch_witness :
    (AttachmentSpec.content
        ⟨some "note.txt", some (ContentVal.buf [1, 2, 3]), none, none⟩
      = some (ContentVal.buf [1, 2, 3])) ∧
    ([1, 2, 3] : List Nat).length ≤ 5 ∧
    ([1, 2, 3] : List Nat).length ≤ MAX_ATTACHMENT_SIZE ∧
    processAttachment 5 327680 "MSG"
      ⟨some "note.txt", some (ContentVal.buf [1, 2, 3]), none, none⟩ {} =
      ([NetEvent.inlineAttach "MSG"
        (resolveFileName ⟨some "note.txt", some (ContentVal.buf [1, 2, 3]), none, none⟩)
        (base64Encode [1, 2, 3])
        (getContentTypeFromFileName
          (resolveFileName ⟨some "note.txt", some (ContentVal.buf [1, 2, 3]), none, none⟩))],
        none) :=
  ⟨rfl, by decide, by decide,
    (C1_buffer_dispatch 5 327680 "MSG"
      ⟨some "note.txt", some (ContentVal.buf [1, 2, 3]), none, none⟩ {} [1, 2, 3] rfl).1
      (by decide) (by decide)⟩

/-- C5: for a URL attachment whose HEAD probe reports a content-length
strictly over the 150 MiB ceiling, the operation fails with the
attachment-too-large error without issuing the download GET. -/
theorem C5_head_over_ceiling (threshold cfgChunkSize : Nat)
    (messageId fileName href contentType : String) (env : AttEnv) (n : Nat)
    (hhttp : hrefIsHttp href = true)
    (hhead : env.headResp = some ⟨true, some n⟩)
    (hn : MAX_ATTACHMENT_SIZE < n) :
    uploadAttachmentFromUrl threshold cfgChunkSize messageId fileName href contentType env
      = ([NetEvent.headReq href], some MailError.attachmentTooLarge) ∧
    NetEvent.getReq href ∉
      (uploadAttachmentFromUrl threshold cfgChunkSize messageId fileName href
        contentType env).1 := by
  have heq : uploadAttachmentFromUrl threshold cfgChunkSize messageId fileName href
      contentType env = ([NetEvent.headReq href], some MailError.attachmentTooLarge) := by
    unfold uploadAttachmentFromUrl
    rw [if_neg (by simp [hhttp])]
    simp [headSize, hhead, hn]
  exact ⟨heq, by rw [heq]; simp⟩

theorem C5_head_over_ceiling_witness :
    hrefIsHttp "http://h/a.bin" = true ∧
    MAX_ATTACHMENT_SIZE < MAX_ATTACHMENT_SIZE + 1 ∧
    uploadAttachmentFromUrl 1024 327680 "MSG" "a.bin" "http://h/a.bin"
      "application/octet-stream"
      { headResp := some ⟨true, some (MAX_ATTACHMENT_SIZE + 1)⟩ }
      = ([NetEvent.headReq "http://h/a.bin"], some MailError.attachmentTooLarge) :=
  ⟨by decide, by omega,
    (C5_head_over_ceiling 1024 327680 "MSG" "a.bin" "http://h/a.bin"
      "application/octet-stream"
      { headResp := some ⟨true, some (MAX_ATTACHMENT_SIZE + 1)⟩ }
      (MAX_ATTACHMENT_SIZE + 1) (by decide) rfl (by omega)).1⟩

/-- A local-path source the silent-skip policy covers: `fs.stat` threw, or
the path is not a regular file, or the file is empty. -/
def statMissing : Option StatInfo → Prop
  | none => True
  | some st => st.isFile = false ∨ st.size = 0

theorem processAttachment_skip (threshold cfgChunkSize : Nat) (messageId : String)
    (a : AttachmentSpec) (ae : AttEnv)
    (hcontent : truthyContent a.content = false)
    (hskip :
      (truthyOptStr a.path = true ∧ statMissing ae.stat) ∨
      (truthyOptStr a.path = false ∧ truthyOptStr a.href = true ∧
        hrefIsHttp ((a.href).getD "") = false)) :
    processAttachment threshold cfgChunkSize messageId a ae = ([], none) := by
  unfold processAttachment
  rcases hskip with ⟨hp, hstat⟩ | ⟨hp, hh, hhttp⟩
  · rw [if_neg (by simp [hcontent, hp]), if_neg (by simp [hcontent]),
      if_pos (by simp [hp])]
    cases hs : ae.stat with
    | none => rfl
    | some st =>
      rw [hs] at hstat
      simp only [statMissing] at hstat
      rcases hstat with h | h
      · simp [h]
      · simp [h]
  · rw [if_neg (by simp [hcontent, hh]), if_neg (by simp [hcontent]),
      if_neg (by simp [hp]), if_pos (by simp [hh])]
    unfold uploadAttachmentFromUrl
    rw [if_pos (by simp [hhttp])]

theorem uploadAttachments_cons_skip (threshold cfgChunkSize : Nat) (messageId : String)
    (a : AttachmentSpec) (ae : AttEnv) (rest : List (AttachmentSpec × AttEnv))
    (h : processAttachment threshold cfgChunkSize messageId a ae = ([], none)) :
    uploadAttachments threshold cfgChunkSize messageId ((a, ae) :: rest)
      = uploadAttachments threshold cfgChunkSize messageId rest := by
  simp [uploadAttachments, h]

/-- C6: an attachment whose source is a local path that cannot be stat'ed,
is not a regular file, or is empty — or a URL with a non-http(s) scheme —
raises nothing: the send runs exactly as if that attachment were absent,
so it proceeds with the remaining attachments and succeeds whenever they
do. -/
theorem C6_silent_skip (threshold cfgChunkSize : Nat) (mail : MailOptions)
    (env : SendEnv) (a : AttachmentSpec) (ae : AttEnv)
    (moreAtts : List AttachmentSpec) (moreEnvs : List AttEnv)
    (hcontent : truthyContent a.content = false)
    (hskip :
      (truthyOptStr a.path = true ∧ statMissing ae.stat) ∨
      (truthyOptStr a.path = false ∧ truthyOptStr a.href = true ∧
        hrefIsHttp ((a.href).getD "") = false)) :
    sendMail threshold cfgChunkSize
        { mail with attachments := a :: moreAtts }
        { env with attEnvs := ae :: moreEnvs }
      = sendMail threshold cfgChunkSize
        { mail with attachments := moreAtts }
        { env with attEnvs := moreEnvs } := by
  have hpa := processAttachment_skip threshold cfgChunkSize env.draftId a ae
    hcontent hskip
  have hup := uploadAttachments_cons_skip threshold cfgChunkSize env.draftId a ae
    (moreAtts.zip moreEnvs) hpa
  cases hbr : buildRecipients mail.toAddr with
  | none => simp [sendMail, sendMailCore, hbr]
  | some rcpts => simp [sendMail, sendMailCore, hbr, hup]

theorem C6_silent_skip_witness :
    truthyContent (AttachmentSpec.content ⟨none, none, some "/missing.txt", none⟩)
      = false ∧
    truthyOptStr (AttachmentSpec.path ⟨none, none, some "/missing.txt", none⟩)
      = true ∧
    sendMail 1024 327680
        ⟨"S", StrOrList.str "x@ex.com", .undef, .undef, some "b", none,
          [⟨none, none, some "/missing.txt", none⟩]⟩
        ⟨"MSG", "IM", [{}]⟩
      = sendMail 1024 327680
        ⟨"S", StrOrList.str "x@ex.com", .undef, .undef, some "b", none, []⟩
        ⟨"MSG", "IM", []⟩ :=
  ⟨by decide, by decide,
    C6_silent_skip 1024 327680
      ⟨"S", StrOrList.str "x@ex.com", .undef, .undef, some "b", none, []⟩
      ⟨"MSG", "IM", []⟩
      ⟨none, none, some "/missing.txt", none⟩ {} [] []
      (by decide) (Or.inl ⟨by decide, trivial⟩)⟩

/-- C7: when the `to` value parses to no recipients, the send fails with
the no-recipients error before any request, the error-logging hook runs
exactly once, and the caller observes the original error re-raised. -/
theorem C7_no_recipients (threshold cfgChunkSize : Nat) (mail : MailOptions)
    (env : SendEnv) (h : buildRecipients mail.toAddr = none) :
    sendMail threshold cfgChunkSize mail env
      = ([], [MailError.noRecipients], Except.error MailError.noRecipients) := by
  simp [sendMail, sendMailCore, h]

theorem C7_no_recipients_witness :
    buildRecipients (StrOrList.str "") = none ∧
    sendMail 1024 327680
        ⟨"S", StrOrList.str "", .undef, .undef, some "x", none, []⟩ ⟨"MSG", "IM", []⟩
      = ([], [MailError.noRecipients], Except.error MailError.noRecipients) :=
  ⟨by decide, C7_no_recipients 1024 327680
    ⟨"S", StrOrList.str "", .undef, .undef, some "x", none, []⟩ ⟨"MSG", "IM", []⟩
    (by decide)⟩

/-- The claim's parsing pipeline, written from the spec's words: split on
semicolons and commas, trim whitespace, drop empty entries, deduplicate
preserving first-occurrence order. -/
def claimRecipientParse (s : String) : List String :=
  (((splitChars (fun c => c == ';' || c == ',') s.toList).map
    (fun g => String.mk (trimChars g))).filter (fun a => a != "")).eraseDups

/-- C8: recipient parsing realizes exactly the split/trim/drop/dedupe
pipeline, and on "a@ex.com; b@ex.com, a@ex.com" yields the ordered pair of
addresses with the duplicate removed. -/
theorem C8_recipient_parsing :
    (∀ s : String, buildRecipients (StrOrList.str s)
      = if claimRecipientParse s = [] then none
        else some ((claimRecipientParse s).map Recipient.mk)) ∧
    buildRecipients (StrOrList.str "a@ex.com; b@ex.com, a@ex.com")
      = some [⟨"a@ex.com"⟩, ⟨"b@ex.com"⟩] := by
  constructor
  · intro s
    by_cases hs : s = ""
    · subst hs
      decide
    · simp only [buildRecipients, strOrListFalsy]
      rw [if_neg (by simp [hs])]
      simp [claimRecipientParse, List.isEmpty_iff]
  · decide

/-- C9: for an http(s) URL attachment, a non-ok download GET — or, on the
streaming entry, a response without a body — makes the code return without
any error, skipping the attachment silently (its trace stops at the two
requests), so the enclosing send continues with the remaining
attachments. -/
theorem C9_download_failure_skips (threshold cfgChunkSize : Nat)
    (messageId fileName href contentType : String) (env : AttEnv) :
    (∀ n : Nat, hrefIsHttp href = true →
      env.headResp = some ⟨true, some n⟩ →
      n ≤ MAX_ATTACHMENT_SIZE → n ≤ threshold → env.smallGet.ok = false →
      uploadAttachmentFromUrl threshold cfgChunkSize messageId fileName href
          contentType env
        = ([NetEvent.headReq href, NetEvent.getReq href], none)) ∧
    (hrefIsHttp href = true →
      (headSize env.headResp = none ∨
        ∃ n, headSize env.headResp = some n ∧ threshold < n ∧
          n ≤ MAX_ATTACHMENT_SIZE) →
      (env.streamGet.ok = false ∨ env.streamGet.hasBody = false) →
      uploadAttachmentFromUrl threshold cfgChunkSize messageId fileName href
          contentType env
        = ([NetEvent.headReq href, NetEvent.getReq href], none)) := by
  constructor
  · intro n hhttp hhead hmax hth hok
    unfold uploadAttachmentFromUrl
    rw [if_neg (by simp [hhttp])]
    simp [headSize, hhead, urlSmallDownload, hok,
      show ¬ n > MAX_ATTACHMENT_SIZE by omega, hth]
  · intro hhttp hsz hfail
    unfold uploadAttachmentFromUrl
    rw [if_neg (by simp [hhttp])]
    have hstream : ∀ szo : Option Nat,
        urlStreamDownload threshold cfgChunkSize messageId fileName href contentType
          env szo = ([NetEvent.headReq href, NetEvent.getReq href], none) := by
      intro szo
      rcases hfail with h | h <;> simp [urlStreamDownload, h]
    rcases hsz with hnone | ⟨n, hsome, hth, hmax⟩
    · rw [hnone]
      simp [hstream]
    · rw [hsome]
      simp [show ¬ n > MAX_ATTACHMENT_SIZE by omega,
        show ¬ n ≤ threshold by omega, hstream]

theorem C9_download_failure_skips_witness :
    (hrefIsHttp "http://h/a.bin" = true ∧
      uploadAttachmentFromUrl 1024 327680 "MSG" "a.bin" "http://h/a.bin"
        "application/octet-stream"
        { headResp := some ⟨true, some 10⟩, smallGet := ⟨false, true, none, []⟩ }
        = ([NetEvent.headReq "http://h/a.bin", NetEvent.getReq "http://h/a.bin"],
          none)) ∧
    (uploadAttachmentFromUrl 1024 327680 "MSG" "a.bin" "http://h/a.bin"
        "application/octet-stream"
        { headResp := none, streamGet := ⟨false, true, none, []⟩ }
        = ([NetEvent.headReq "http://h/a.bin", NetEvent.getReq "http://h/a.bin"],
          none)) :=
  ⟨⟨by decide,
    (C9_download_failure_skips 1024 327680 "MSG" "a.bin" "http://h/a.bin"
      "application/octet-stream"
      { headResp := some ⟨true, some 10⟩, smallGet := ⟨false, true, none, []⟩ }).1
      10 (by decide) rfl (by decide) (by decide) rfl⟩,
    (C9_download_failure_skips 1024 327680 "MSG" "a.bin" "http://h/a.bin"
      "application/octet-stream"
      { headResp := none, streamGet := ⟨false, true, none, []⟩ }).2
      (by decide) (Or.inl rfl) (Or.inl rfl)⟩

/-- C10: message retrieval with an empty (falsy) id fails with the
id-required error before issuing any request — the trace is empty, so no
message state is queried or modified. -/
theorem C10_empty_id (opts : GetMailOptions) (env : GetMailEnv) :
    getMailById "" opts env = ([], Except.error MailError.idRequired) := by
  simp [getMailById]

theorem C8_recipient_parsing_witness :
    buildRecipients (StrOrList.str "a@ex.com; b@ex.com, a@ex.com")
      = if claimRecipientParse "a@ex.com; b@ex.com, a@ex.com" = [] then none
        else some ((claimRecipientParse "a@ex.com; b@ex.com, a@ex.com").map
          Recipient.mk) :=
  C8_recipient_parsing.1 "a@ex.com; b@ex.com, a@ex.com"

theorem C10_empty_id_witness :
    getMailById "" {} {} = ([], Except.error MailError.idRequired) :=
  C10_empty_id {} {}
